import Mathlib

/-!
Verification of the QCNN tutorial script
`src/demonstrations/tutorial_learning_few_data.py`.

The script builds a parametrized quantum circuit (convolution, pooling and
dense layers) by queueing gate operations, and trains it with an external
optimizer.  We embed the circuit-construction functions shallowly: a circuit
is the list of gate operations queued, in order; a Python `assert` becomes an
`Except.error` carrying the assertion message.  Rotation angles and weights
are embedded as rationals (the script never branches on their values).  The
external collaborators (the state-vector simulator and the Adam optimizer)
are abstracted as function parameters where the claims need them.
-/

/-- One gate operation queued by the script.  Constructors mirror the
PennyLane operations the script emits: `qml.U3`, `qml.IsingXX/YY/ZZ`,
`qml.measure` followed by `qml.cond(..., qml.U3)`, `qml.AmplitudeEmbedding`
(recording the `pad_with` argument), and `qml.ArbitraryUnitary`. -/
inductive Gate where
  | u3 (a b c : ℚ) (wire : ℕ)
  | isingXX (a : ℚ) (w1 w2 : ℕ)
  | isingYY (a : ℚ) (w1 w2 : ℕ)
  | isingZZ (a : ℚ) (w1 w2 : ℕ)
  | measure (wire : ℕ)
  | condU3 (ctrl : ℕ) (a b c : ℚ) (target : ℕ)
  | amplitudeEmbedding (features : List ℚ) (padWith : ℚ) (wires : List ℕ)
  | arbitraryUnitary (weights : List ℚ) (wires : List ℕ)
deriving DecidableEq

/-- `convolutional_layer(weights, wires, skip_first_layer=True)` from the
source (lines 153-167): two sweeps `p = 0, 1` over the enumerated wire list;
a pair at index `indx < n_wires - 1` with `indx % 2 == p` receives, first,
two `qml.U3` gates when `indx % 2 == 0 and skip_first_layer`, then
`IsingXX/IsingYY/IsingZZ` with `weights[6..8]` and two `qml.U3` gates with
`weights[9:12]` and `weights[12:]`.  The `assert n_wires >= 3` becomes the
error branch (nothing is emitted on failure, as in Python).  Python list
indexing `weights[i]` is embedded as `weights.getD i 0`; the claims always
supply a weight block of length 15, where the two coincide. -/
def convolutional_layer (weights : List ℚ) (wires : List ℕ)
    (skip_first_layer : Bool := true) : Except String (List Gate) :=
  let n_wires := wires.length
  if 3 ≤ n_wires then
    .ok (([0, 1] : List ℕ).flatMap fun p =>
      (List.range n_wires).flatMap fun indx =>
        if indx % 2 = p ∧ indx < n_wires - 1 then
          (if indx % 2 = 0 ∧ skip_first_layer = true then
            [Gate.u3 (weights.getD 0 0) (weights.getD 1 0) (weights.getD 2 0)
               (wires.getD indx 0),
             Gate.u3 (weights.getD 3 0) (weights.getD 4 0) (weights.getD 5 0)
               (wires.getD (indx + 1) 0)]
          else []) ++
          [Gate.isingXX (weights.getD 6 0) (wires.getD indx 0) (wires.getD (indx + 1) 0),
           Gate.isingYY (weights.getD 7 0) (wires.getD indx 0) (wires.getD (indx + 1) 0),
           Gate.isingZZ (weights.getD 8 0) (wires.getD indx 0) (wires.getD (indx + 1) 0),
           Gate.u3 (weights.getD 9 0) (weights.getD 10 0) (weights.getD 11 0)
             (wires.getD indx 0),
           Gate.u3 (weights.getD 12 0) (weights.getD 13 0) (weights.getD 14 0)
             (wires.getD (indx + 1) 0)]
        else [])
  else .error "this circuit is too small!"

/-- `pooling_layer(weights, wires)` from the source (lines 174-181): for each
`indx` with `indx % 2 == 1 and indx < n_wires` (the second conjunct is
vacuous, kept as in the source), measure `wires[indx]` and apply a `qml.U3`
with the three weights to `wires[indx - 1]`, conditioned on the outcome.
The `assert len(wires) >= 2` becomes the error branch. -/
def pooling_layer (weights : List ℚ) (wires : List ℕ) :
    Except String (List Gate) :=
  let n_wires := wires.length
  if 2 ≤ wires.length then
    .ok ((List.range n_wires).flatMap fun indx =>
      if indx % 2 = 1 ∧ indx < n_wires then
        [Gate.measure (wires.getD indx 0),
         Gate.condU3 (wires.getD indx 0)
           (weights.getD 0 0) (weights.getD 1 0) (weights.getD 2 0)
           (wires.getD (indx - 1) 0)]
      else [])
  else .error "this circuit is too small!"

/-- `conv_and_pooling(kernel_weights, n_wires)` from the source (lines
190-192): the first 15 weights go to the convolutional layer (with the
default `skip_first_layer=True`), the rest to the pooling layer, over the
same wire list.  If the convolutional layer's assertion fails nothing is
emitted; the pooling layer's assertion cannot fail once the convolutional
one passed (3 ≤ n implies 2 ≤ n). -/
def conv_and_pooling (kernel_weights : List ℚ) (n_wires : List ℕ) :
    Except String (List Gate) :=
  match convolutional_layer (kernel_weights.take 15) n_wires true,
        pooling_layer (kernel_weights.drop 15) n_wires with
  | .ok a, .ok b => .ok (a ++ b)
  | .error e, _ => .error e
  | .ok _, .error e => .error e

/-- `dense_layer(weights, wires)` from the source (lines 195-196): it only
calls `qml.ArbitraryUnitary(weights, wires)`; the repository code performs
no size check here. -/
def dense_layer (weights : List ℚ) (wires : List ℕ) :
    Except String (List Gate) :=
  .ok [Gate.arbitraryUnitary weights wires]

/-- `num_wires = 6` from the source (line 198). -/
def num_wires : ℕ := 6

/-- The Python slice `wires[::2]` (every other element, starting at
index 0). -/
def everyOther {α : Type} : List α → List α
  | [] => []
  | [x] => [x]
  | x :: _ :: xs => x :: everyOther xs

/-- The f-string of the failed size assertion in `conv_net` (line 218). -/
def sizeErrorMsg (expected given : ℕ) : String :=
  "The size of the last layer weights vector is incorrect! \n Expected "
    ++ Nat.repr expected ++ ", Given " ++ Nat.repr given

deriving instance DecidableEq for Except

/-- Result of running the convolution/pooling rounds of `conv_net`:
the gates queued so far, whether an assertion fired, and the wire list
remaining active afterwards. -/
structure RoundsOut where
  gates : List Gate
  result : Except String Unit
  wires : List ℕ
deriving DecidableEq

/-- The `for j in range(layers): conv_and_pooling(weights[:, j], wires);
wires = wires[::2]` loop of `conv_net` (lines 212-214).  The weight tensor
is embedded column-major: the list entry `j` is the column `weights[:, j]`.
On an assertion failure the gates of the earlier, completed rounds remain
queued, as in Python. -/
def convRounds : List (List ℚ) → List ℕ → RoundsOut
  | [], wires => ⟨[], .ok (), wires⟩
  | c :: rest, wires =>
    match conv_and_pooling c wires with
    | .error e => ⟨[], .error e, wires⟩
    | .ok gs =>
      let r := convRounds rest (everyOther wires)
      ⟨gs ++ r.gates, r.result, r.wires⟩

/-- What executing the qnode body records: the queued gates, and either the
assertion message that fired or the wires whose measurement-outcome
probabilities are returned. -/
structure QNodeOutput where
  gates : List Gate
  result : Except String (List ℕ)
deriving DecidableEq

/-- `conv_net(weights, last_layer_weights, features)` from the source (lines
201-220): amplitude-embed the features over all `num_wires` wires with
`pad_with=0.5`; run the convolution/pooling rounds, halving the wire list by
`wires[::2]` after each; assert
`last_layer_weights.size == 4 ** len(wires) - 1`; apply the dense layer to
the remaining wires; return `qml.probs(wires=(0))` — the distribution of
wire 0 alone.  The weight tensor is embedded column-major (entry `j` of
`weights` is the column `weights[:, j]`, so `layers = weights.shape[1]` is
`weights.length`). -/
def conv_net (weights : List (List ℚ)) (last_layer_weights : List ℚ)
    (features : List ℚ) : QNodeOutput :=
  let wires := List.range num_wires
  let embed := Gate.amplitudeEmbedding features (1 / 2) wires
  let r := convRounds weights wires
  match r.result with
  | .error e => ⟨embed :: r.gates, .error e⟩
  | .ok _ =>
    if last_layer_weights.length = 4 ^ r.wires.length - 1 then
      match dense_layer last_layer_weights r.wires with
      | .ok dg => ⟨embed :: (r.gates ++ dg), .ok [0]⟩
      | .error e => ⟨embed :: r.gates, .error e⟩
    else
      ⟨embed :: r.gates,
       .error (sizeErrorMsg (4 ^ r.wires.length - 1) last_layer_weights.length)⟩

/-- Modelled from the spec: `qml.AmplitudeEmbedding` (external to the
repository) pads the feature vector with the `pad_with` constant up to the
dimension of the register spanned by its wires.  Returns `none` on any other
gate. -/
def ampSemantics : Gate → Option (List ℚ)
  | .amplitudeEmbedding f p ws => some (f ++ List.replicate (2 ^ ws.length - f.length) p)
  | _ => none

/-- The wires measured by a gate list (in order of queueing). -/
def measuredWires (gs : List Gate) : List ℕ :=
  gs.filterMap fun g => match g with | .measure w => some w | _ => none

/-- Whether a gate is the dense layer's `ArbitraryUnitary`. -/
def isDense : Gate → Bool
  | .arbitraryUnitary _ _ => true
  | _ => false

/-- The two extra single-qubit rotations (`weights[:3]`, `weights[3:6]`)
placed on the adjacent pair starting at index `i`. -/
def extraRots (weights : List ℚ) (wires : List ℕ) (i : ℕ) : List Gate :=
  [Gate.u3 (weights.getD 0 0) (weights.getD 1 0) (weights.getD 2 0)
     (wires.getD i 0),
   Gate.u3 (weights.getD 3 0) (weights.getD 4 0) (weights.getD 5 0)
     (wires.getD (i + 1) 0)]

/-- The unconditional block of the convolutional layer on the adjacent pair
starting at index `i`: three Ising interactions (X, Y, Z axes) with
`weights[6..8]`, then two single-qubit rotations with `weights[9:12]` and
`weights[12:]`. -/
def pairCore (weights : List ℚ) (wires : List ℕ) (i : ℕ) : List Gate :=
  [Gate.isingXX (weights.getD 6 0) (wires.getD i 0) (wires.getD (i + 1) 0),
   Gate.isingYY (weights.getD 7 0) (wires.getD i 0) (wires.getD (i + 1) 0),
   Gate.isingZZ (weights.getD 8 0) (wires.getD i 0) (wires.getD (i + 1) 0),
   Gate.u3 (weights.getD 9 0) (weights.getD 10 0) (weights.getD 11 0)
     (wires.getD i 0),
   Gate.u3 (weights.getD 12 0) (weights.getD 13 0) (weights.getD 14 0)
     (wires.getD (i + 1) 0)]

/-- The indices of the adjacent pairs handled by sweep `p` of the
convolutional layer: `indx % 2 == p and indx < n_wires - 1`. -/
def sweepPairs (p : ℕ) (wires : List ℕ) : List ℕ :=
  (List.range wires.length).filter fun i =>
    decide (i % 2 = p ∧ i < wires.length - 1)

/-- `compute_out(weights, weights_last, features, labels)` from the source
(lines 257-260): for each (feature, label) pair the probability
`conv_net(weights, weights_last, feature)[label]`.  The executed probability
vector is produced by the external state-vector simulator, abstracted here
as the parameter `convNetProb`; `jax.vmap` over the two batch axes is the
elementwise map over the zipped batch. -/
def compute_out {W Wl F : Type} (convNetProb : W → Wl → F → List ℚ)
    (weights : W) (weights_last : Wl) (features : List F) (labels : List ℕ) :
    List ℚ :=
  List.zipWith (fun feature label =>
    (convNetProb weights weights_last feature).getD label 0) features labels

/-- `compute_accuracy(weights, weights_last, features, labels)` from the
source (lines 262-266): `jnp.sum(out > 0.5) / len(out)`. -/
def compute_accuracy {W Wl F : Type} (convNetProb : W → Wl → F → List ℚ)
    (weights : W) (weights_last : Wl) (features : List F) (labels : List ℕ) :
    ℚ :=
  let out := compute_out convNetProb weights weights_last features labels
  ((out.countP fun x => decide ((1 : ℚ) / 2 < x)) : ℚ) / (out.length : ℚ)

/-- `compute_cost(weights, weights_last, features, labels)` from the source
(lines 268-272): `1.0 - jnp.sum(out) / len(labels)`. -/
def compute_cost {W Wl F : Type} (convNetProb : W → Wl → F → List ℚ)
    (weights : W) (weights_last : Wl) (features : List F) (labels : List ℕ) :
    ℚ :=
  let out := compute_out convNetProb weights weights_last features labels
  1 - out.sum / (labels.length : ℚ)

/-- The mean of a list of rationals, `sum / length`. -/
def listMean (l : List ℚ) : ℚ := l.sum / (l.length : ℚ)

/-- The per-epoch metric lists accumulated by the training loop of
`train_qcnn` (lines 307-327). -/
structure EpochData where
  train_cost : List ℚ
  train_acc : List ℚ
  test_cost : List ℚ
  test_acc : List ℚ

/-- The body of `for step in pbar:` in `train_qcnn` (lines 311-327), run
`n` times.  `W` is the pair of weight tensors `(weights, weights_last)` and
`S` the optimizer's internal state; one epoch calls
`optimizer.step_and_cost(compute_cost, ...)` once — abstracted as
`stepAndCost`, returning the updated state/weights and the cost value it
reports — appends that cost, then appends the train accuracy, test cost and
test accuracy evaluated at the updated weights (the train and test batches
are fixed throughout the loop, so those metrics are functions of the
weights alone). -/
def trainEpochs {S W : Type} (stepAndCost : S → W → (S × W) × ℚ)
    (trainAcc testCost testAcc : W → ℚ) : ℕ → S → W → EpochData
  | 0, _, _ => ⟨[], [], [], []⟩
  | n + 1, s, w =>
    let r := stepAndCost s w
    let rest := trainEpochs stepAndCost trainAcc testCost testAcc n r.1.1 r.1.2
    ⟨r.2 :: rest.train_cost, trainAcc r.1.2 :: rest.train_acc,
     testCost r.1.2 :: rest.test_cost, testAcc r.1.2 :: rest.test_acc⟩

/-- The dict returned by `train_qcnn` (lines 331-338). -/
structure TrainResult where
  n_train : List ℕ
  step : List ℕ
  train_cost : List ℚ
  train_acc : List ℚ
  test_cost : List ℚ
  test_acc : List ℚ

/-- `train_qcnn(n_train, n_test, n_epochs, desc)` from the source (lines
287-338), after data loading and weight initialization: run the epoch loop
`n_epochs` times from the initial optimizer state `s0` and initial weights
`w0`, and return the metric lists together with `[n_train] * n_epochs` and
`np.arange(1, n_epochs + 1)`. -/
def train_qcnn {S W : Type} (stepAndCost : S → W → (S × W) × ℚ)
    (trainAcc testCost testAcc : W → ℚ) (n_train n_epochs : ℕ)
    (s0 : S) (w0 : W) : TrainResult :=
  let d := trainEpochs stepAndCost trainAcc testCost testAcc n_epochs s0 w0
  ⟨List.replicate n_epochs n_train, (List.range n_epochs).map (fun i => i + 1),
   d.train_cost, d.train_acc, d.test_cost, d.test_acc⟩

/-- Modelled from the spec: the optimizer collaborator
(`qml.AdamOptimizer.step_and_cost`, external to the repository) "returns
updated weight tensors and the cost value at the prior point".  `upd` is its
(otherwise arbitrary) update rule on the optimizer state and the weights. -/
def specStepAndCost {S W : Type} (upd : S → W → S × W) (cost : W → ℚ) :
    S → W → (S × W) × ℚ :=
  fun s w => (upd s w, cost w)

/-- One optimizer update, as a self-map on (optimizer state, weights). -/
def stepIter {S W : Type} (stepAndCost : S → W → (S × W) × ℚ) (p : S × W) :
    S × W :=
  (stepAndCost p.1 p.2).1

/-! ### List helper lemmas -/

theorem zipWith_eq_map_zip {α β γ : Type} (f : α → β → γ) :
    ∀ (l₁ : List α) (l₂ : List β),
      List.zipWith f l₁ l₂ = (l₁.zip l₂).map fun p => f p.1 p.2
  | [], _ => by simp
  | _ :: _, [] => by simp
  | a :: t₁, b :: t₂ => by
    simp [List.zip_cons_cons, zipWith_eq_map_zip f t₁ t₂]

theorem filter_flatMap {α β : Type} (P : α → Prop) [DecidablePred P]
    (l : List α) (f : α → List β) :
    (l.filter fun i => decide (P i)).flatMap f
      = l.flatMap fun i => if P i then f i else [] := by
  induction l with
  | nil => rfl
  | cons a t ih =>
    by_cases h : P a <;> simp [List.filter_cons, h, ih]

theorem range_odd_flatMap {β : Type} (f : ℕ → List β) :
    ∀ n : ℕ, ((List.range n).flatMap fun i => if i % 2 = 1 then f i else [])
      = (List.range (n / 2)).flatMap fun k => f (2 * k + 1) := by
  intro n
  induction n with
  | zero => rfl
  | succ n ih =>
    rw [List.range_succ, List.flatMap_append, ih, List.flatMap_cons,
      List.flatMap_nil, List.append_nil]
    rcases Nat.mod_two_eq_zero_or_one n with h | h
    · rw [if_neg (by omega), List.append_nil, show (n + 1) / 2 = n / 2 by omega]
    · rw [if_pos h, show (n + 1) / 2 = n / 2 + 1 by omega, List.range_succ,
        List.flatMap_append, List.flatMap_cons, List.flatMap_nil,
        List.append_nil, show 2 * (n / 2) + 1 = n by omega]

theorem measuredWires_flatMap {β : Type} (l : List β) (f : β → List Gate) :
    measuredWires (l.flatMap f) = l.flatMap fun x => measuredWires (f x) := by
  induction l with
  | nil => rfl
  | cons a t ih =>
    simp only [List.flatMap_cons, measuredWires, List.filterMap_append]
    exact congrArg _ ih

theorem flatMap_single {α β : Type} (f : α → β) :
    ∀ l : List α, (l.flatMap fun x => [f x]) = l.map f
  | [] => rfl
  | a :: t => by simp [List.flatMap_cons, flatMap_single f t]

theorem everyOther_eq_map {α : Type} (d : α) :
    ∀ l : List α,
      everyOther l = (List.range ((l.length + 1) / 2)).map fun k => l.getD (2 * k) d
  | [] => by simp [everyOther]
  | [x] => by simp [everyOther, List.range_succ]
  | x :: y :: t => by
    have ih := everyOther_eq_map d t
    show x :: everyOther t = (List.range ((t.length + 2 + 1) / 2)).map _
    rw [show (t.length + 2 + 1) / 2 = (t.length + 1) / 2 + 1 by omega,
      List.range_succ_eq_map, List.map_cons, List.map_map]
    refine congrArg₂ _ rfl ?_
    rw [ih]
    refine List.map_congr_left fun k _ => ?_
    show t.getD (2 * k) d = (x :: y :: t).getD (2 * Nat.succ k) d
    have h2 : 2 * Nat.succ k = 2 * k + 1 + 1 := by omega
    rw [h2, List.getD_cons_succ, List.getD_cons_succ]

theorem everyOther_cons_tail {α : Type} (y : α) :
    ∀ t : List α, everyOther (y :: t) = y :: everyOther t.tail
  | [] => rfl
  | _ :: _ => rfl

theorem everyOther_perm {α : Type} :
    ∀ l : List α, l.Perm (everyOther l ++ everyOther l.tail)
  | [] => by simp [everyOther]
  | [x] => by simp [everyOther]
  | x :: y :: t => by
    show (x :: y :: t).Perm ((x :: everyOther t) ++ everyOther (y :: t))
    rw [everyOther_cons_tail, List.cons_append]
    refine List.Perm.cons x ?_
    exact ((everyOther_perm t).cons y).trans List.perm_middle.symm

theorem getD_tail {α : Type} (d : α) (i : ℕ) :
    ∀ l : List α, l.tail.getD i d = l.getD (i + 1) d
  | [] => rfl
  | _ :: _ => rfl

/-! ### Structure of the circuit layers -/

/-- Gate-level description of a successful `convolutional_layer` call: sweep
`p = 0` handles the even-indexed adjacent pairs and sweep `p = 1` the
odd-indexed ones; every pair receives the `pairCore` block, and the pairs of
the first sweep are preceded by `extraRots` exactly when `skip_first_layer`
is `true`. -/
theorem convolutional_layer_ok (w : List ℚ) (ws : List ℕ) (skip : Bool)
    (h : 3 ≤ ws.length) :
    convolutional_layer w ws skip = .ok
      (((sweepPairs 0 ws).flatMap fun i =>
          (if skip = true then extraRots w ws i else []) ++ pairCore w ws i)
        ++ (sweepPairs 1 ws).flatMap fun i => pairCore w ws i) := by
  simp only [convolutional_layer]
  rw [if_pos h]
  refine congrArg Except.ok ?_
  simp only [List.flatMap_cons, List.flatMap_nil, List.append_nil]
  have h0 : ((sweepPairs 0 ws).flatMap fun i =>
      (if skip = true then extraRots w ws i else []) ++ pairCore w ws i)
      = (List.range ws.length).flatMap fun i =>
        if i % 2 = 0 ∧ i < ws.length - 1 then
          (if skip = true then extraRots w ws i else []) ++ pairCore w ws i
        else [] :=
    filter_flatMap _ _ _
  have h1 : ((sweepPairs 1 ws).flatMap fun i => pairCore w ws i)
      = (List.range ws.length).flatMap fun i =>
        if i % 2 = 1 ∧ i < ws.length - 1 then pairCore w ws i else [] :=
    filter_flatMap _ _ _
  rw [h0, h1]
  refine congrArg₂ (· ++ ·) ?_ ?_
  · refine List.flatMap_congr fun i _ => ?_
    by_cases hp : i % 2 = 0 ∧ i < ws.length - 1
    · rw [if_pos hp, if_pos hp]
      by_cases hs : skip = true
      · rw [if_pos ⟨hp.1, hs⟩, if_pos hs]; rfl
      · rw [if_neg fun hc => hs hc.2, if_neg hs]; rfl
    · rw [if_neg hp, if_neg hp]
  · refine List.flatMap_congr fun i _ => ?_
    by_cases hp : i % 2 = 1 ∧ i < ws.length - 1
    · rw [if_pos hp, if_pos hp, if_neg (by omega : ¬(i % 2 = 0 ∧ skip = true)),
        List.nil_append]
      rfl
    · rw [if_neg hp, if_neg hp]

/-- Gate-level description of a successful `pooling_layer` call: for each
`k < ⌊n/2⌋`, measure the odd-indexed wire `wires[2k+1]` and conditionally
rotate the preceding even-indexed wire `wires[2k]`. -/
theorem pooling_layer_ok (w : List ℚ) (ws : List ℕ) (h : 2 ≤ ws.length) :
    pooling_layer w ws = .ok ((List.range (ws.length / 2)).flatMap fun k =>
      [Gate.measure (ws.getD (2 * k + 1) 0),
       Gate.condU3 (ws.getD (2 * k + 1) 0)
         (w.getD 0 0) (w.getD 1 0) (w.getD 2 0) (ws.getD (2 * k) 0)]) := by
  simp only [pooling_layer]
  rw [if_pos h]
  refine congrArg Except.ok ?_
  have hm : ∀ i ∈ List.range ws.length,
      (if i % 2 = 1 ∧ i < ws.length then
        [Gate.measure (ws.getD i 0),
         Gate.condU3 (ws.getD i 0) (w.getD 0 0) (w.getD 1 0) (w.getD 2 0)
           (ws.getD (i - 1) 0)]
      else [])
      = (if i % 2 = 1 then
        [Gate.measure (ws.getD i 0),
         Gate.condU3 (ws.getD i 0) (w.getD 0 0) (w.getD 1 0) (w.getD 2 0)
           (ws.getD (i - 1) 0)]
      else []) := by
    intro i hi
    rw [List.mem_range] at hi
    by_cases hp : i % 2 = 1
    · rw [if_pos ⟨hp, hi⟩, if_pos hp]
    · rw [if_neg fun hc => hp hc.1, if_neg hp]
  rw [List.flatMap_congr hm, range_odd_flatMap]
  refine List.flatMap_congr fun k _ => ?_
  rw [Nat.add_sub_cancel]

/-- A successful `conv_and_pooling` call splits its weights at index 15 and
queues the convolutional gates followed by the pooling gates. -/
theorem conv_and_pooling_ok (c : List ℚ) (ws : List ℕ) (h : 3 ≤ ws.length) :
    ∃ cg pg, convolutional_layer (c.take 15) ws true = .ok cg ∧
      pooling_layer (c.drop 15) ws = .ok pg ∧
      conv_and_pooling c ws = .ok (cg ++ pg) := by
  refine ⟨_, _, convolutional_layer_ok (c.take 15) ws true h,
    pooling_layer_ok (c.drop 15) ws (by omega), ?_⟩
  simp only [conv_and_pooling]
  rw [convolutional_layer_ok (c.take 15) ws true h,
    pooling_layer_ok (c.drop 15) ws (by omega)]
  rfl

/-- When every round has at least 3 active wires, the convolution/pooling
loop of `conv_net` succeeds, queues the rounds' gate lists in order (round
`j` over the wire list `everyOther^[j] ws`), and leaves
`everyOther^[cols.length] ws` active. -/
theorem convRounds_ok : ∀ (cols : List (List ℚ)) (ws : List ℕ),
    (∀ j < cols.length, 3 ≤ (everyOther^[j] ws).length) →
    ∃ roundGs : ℕ → List Gate,
      (∀ j < cols.length,
        conv_and_pooling (cols.getD j []) (everyOther^[j] ws)
          = .ok (roundGs j)) ∧
      convRounds cols ws =
        ⟨(List.range cols.length).flatMap roundGs, .ok (),
         everyOther^[cols.length] ws⟩
  | [], ws, _ => ⟨fun _ => [], by simp, by simp [convRounds]⟩
  | c :: rest, ws, h => by
    have h0 : 3 ≤ ws.length := by simpa using h 0 (by simp)
    obtain ⟨cg, pg, _, _, hcp⟩ := conv_and_pooling_ok c ws h0
    have hrest : ∀ j < rest.length, 3 ≤ (everyOther^[j] (everyOther ws)).length := by
      intro j hj
      have hj1 := h (j + 1) (by simp [List.length_cons]; omega)
      rwa [Function.iterate_succ_apply] at hj1
    obtain ⟨g, hg, hr⟩ := convRounds_ok rest (everyOther ws) hrest
    refine ⟨fun j => match j with | 0 => cg ++ pg | j + 1 => g j, ?_, ?_⟩
    · intro j hj
      match j with
      | 0 => simpa using hcp
      | j + 1 =>
        have hgj := hg j (by simp [List.length_cons] at hj; omega)
        rw [Function.iterate_succ_apply]
        simpa using hgj
    · show convRounds (c :: rest) ws = _
      simp only [convRounds]
      rw [hcp, hr]
      simp only [List.length_cons]
      refine congrArg₂ (fun a b => RoundsOut.mk a (.ok ()) b) ?_
        (Function.iterate_succ_apply everyOther rest.length ws).symm
      rw [List.range_succ_eq_map, List.flatMap_cons, List.flatMap_map]

/-- No gate queued by `convolutional_layer` is the dense layer's
`ArbitraryUnitary`. -/
theorem convolutional_layer_noDense (w : List ℚ) (ws : List ℕ) (skip : Bool)
    (gs : List Gate) (h : convolutional_layer w ws skip = .ok gs) :
    ∀ g ∈ gs, isDense g = false := by
  rcases le_or_lt 3 ws.length with h3 | h3
  · rw [convolutional_layer_ok w ws skip h3] at h
    injection h with h
    subst h
    intro g hg
    rw [List.mem_append] at hg
    rcases hg with hg | hg <;> rw [List.mem_flatMap] at hg <;>
      obtain ⟨i, _, hgi⟩ := hg
    · rw [List.mem_append] at hgi
      rcases hgi with hgi | hgi
      · split at hgi
        · simp only [extraRots, List.mem_cons, List.not_mem_nil, or_false] at hgi
          rcases hgi with rfl | rfl <;> rfl
        · simp at hgi
      · simp only [pairCore, List.mem_cons, List.not_mem_nil, or_false] at hgi
        rcases hgi with rfl | rfl | rfl | rfl | rfl <;> rfl
    · simp only [pairCore, List.mem_cons, List.not_mem_nil, or_false] at hgi
      rcases hgi with rfl | rfl | rfl | rfl | rfl <;> rfl
  · rw [convolutional_layer, if_neg (by omega)] at h
    exact absurd h (by simp)

/-- No gate queued by `pooling_layer` is the dense layer's
`ArbitraryUnitary`. -/
theorem pooling_layer_noDense (w : List ℚ) (ws : List ℕ)
    (gs : List Gate) (h : pooling_layer w ws = .ok gs) :
    ∀ g ∈ gs, isDense g = false := by
  rcases le_or_lt 2 ws.length with h2 | h2
  · rw [pooling_layer_ok w ws h2] at h
    injection h with h
    subst h
    intro g hg
    rw [List.mem_flatMap] at hg
    obtain ⟨i, _, hgi⟩ := hg
    simp only [List.mem_cons, List.not_mem_nil, or_false] at hgi
    rcases hgi with rfl | rfl <;> rfl
  · rw [pooling_layer, if_neg (by omega)] at h
    exact absurd h (by simp)

/-- No gate queued by `conv_and_pooling` is the dense layer's
`ArbitraryUnitary`. -/
theorem conv_and_pooling_noDense (c : List ℚ) (ws : List ℕ)
    (gs : List Gate) (h : conv_and_pooling c ws = .ok gs) :
    ∀ g ∈ gs, isDense g = false := by
  rw [conv_and_pooling] at h
  split at h
  case _ a b ha hb =>
    injection h with h
    subst h
    intro g hg
    rw [List.mem_append] at hg
    rcases hg with hg | hg
    · exact convolutional_layer_noDense _ _ _ _ ha g hg
    · exact pooling_layer_noDense _ _ _ hb g hg
  case _ => exact absurd h (by simp)
  case _ => exact absurd h (by simp)

/-- No gate queued by the convolution/pooling rounds of `conv_net` is the
dense layer's `ArbitraryUnitary`, whether or not an assertion fired. -/
theorem convRounds_noDense : ∀ (cols : List (List ℚ)) (ws : List ℕ),
    ∀ g ∈ (convRounds cols ws).gates, isDense g = false
  | [], ws => by simp [convRounds]
  | c :: rest, ws => by
    simp only [convRounds]
    cases hcp : conv_and_pooling c ws with
    | error e => simp
    | ok gs =>
      intro g hg
      simp only [List.mem_append] at hg
      rcases hg with hg | hg
      · exact conv_and_pooling_noDense c ws gs hcp g hg
      · exact convRounds_noDense rest (everyOther ws) g hg

/-! ### Structure of the training loop -/

/-- Each metric list produced by the epoch loop has exactly one entry per
epoch. -/
theorem trainEpochs_length {S W : Type} (f : S → W → (S × W) × ℚ)
    (ta tc sa : W → ℚ) : ∀ (n : ℕ) (s : S) (w : W),
    (trainEpochs f ta tc sa n s w).train_cost.length = n ∧
    (trainEpochs f ta tc sa n s w).train_acc.length = n ∧
    (trainEpochs f ta tc sa n s w).test_cost.length = n ∧
    (trainEpochs f ta tc sa n s w).test_acc.length = n
  | 0, _, _ => by simp [trainEpochs]
  | n + 1, s, w => by
    have ih := trainEpochs_length f ta tc sa n (f s w).1.1 (f s w).1.2
    simp [trainEpochs, ih.1, ih.2.1, ih.2.2.1, ih.2.2.2]

/-- Entry `i` of the metric lists: the recorded train cost is the value the
optimizer returned when called at the weights reached after `i` updates
(the pre-update point of epoch `i + 1`), while the recorded train accuracy,
test cost and test accuracy are evaluated at the weights reached after
`i + 1` updates (the post-update point of that epoch). -/
theorem trainEpochs_getD {S W : Type} (f : S → W → (S × W) × ℚ)
    (ta tc sa : W → ℚ) : ∀ (n : ℕ) (s : S) (w : W) (i : ℕ), i < n →
    (trainEpochs f ta tc sa n s w).train_cost.getD i 0
        = (f ((stepIter f)^[i] (s, w)).1 ((stepIter f)^[i] (s, w)).2).2 ∧
    (trainEpochs f ta tc sa n s w).train_acc.getD i 0
        = ta ((stepIter f)^[i + 1] (s, w)).2 ∧
    (trainEpochs f ta tc sa n s w).test_cost.getD i 0
        = tc ((stepIter f)^[i + 1] (s, w)).2 ∧
    (trainEpochs f ta tc sa n s w).test_acc.getD i 0
        = sa ((stepIter f)^[i + 1] (s, w)).2
  | 0, _, _, i, hi => absurd hi (by omega)
  | n + 1, s, w, 0, _ => by
    refine ⟨?_, ?_, ?_, ?_⟩ <;>
      simp [trainEpochs, stepIter, Function.iterate_one]
  | n + 1, s, w, i + 1, hi => by
    have ih := trainEpochs_getD f ta tc sa n (f s w).1.1 (f s w).1.2 i
      (by omega)
    have hstep : ((f s w).1.1, (f s w).1.2) = stepIter f (s, w) := by
      simp [stepIter]
    rw [hstep] at ih
    simp only [← Function.iterate_succ_apply] at ih
    simpa [trainEpochs, List.getD_cons_succ] using ih

/-! ### Claim C5 -/

/-- C5: `convolutional_layer` fails with the configuration error
`"this circuit is too small!"` for every wire list of length < 3 (an error
result queues no gate), `pooling_layer` fails likewise for every wire list
of length < 2, and for wire lists meeting these bounds neither raises. -/
theorem C5_layer_preconditions (w : List ℚ) (ws : List ℕ) (skip : Bool) :
    (ws.length < 3 →
      convolutional_layer w ws skip = .error "this circuit is too small!") ∧
    (3 ≤ ws.length → ∃ gs, convolutional_layer w ws skip = .ok gs) ∧
    (ws.length < 2 →
      pooling_layer w ws = .error "this circuit is too small!") ∧
    (2 ≤ ws.length → ∃ gs, pooling_layer w ws = .ok gs) := by
  refine ⟨fun h => ?_, fun h => ?_, fun h => ?_, fun h => ?_⟩
  · simp only [convolutional_layer]
    rw [if_neg (by omega)]
  · exact ⟨_, convolutional_layer_ok w ws skip h⟩
  · simp only [pooling_layer]
    rw [if_neg (by omega)]
  · exact ⟨_, pooling_layer_ok w ws h⟩

theorem C5_witness :
    (convolutional_layer [] [0, 1] true = .error "this circuit is too small!")
    ∧ (∃ gs, convolutional_layer [] [0, 1, 2] true = .ok gs)
    ∧ (pooling_layer [] [0] = .error "this circuit is too small!")
    ∧ (∃ gs, pooling_layer [] [0, 1] = .ok gs) :=
  ⟨(C5_layer_preconditions [] [0, 1] true).1 (by decide),
   (C5_layer_preconditions [] [0, 1, 2] true).2.1 (by decide),
   (C5_layer_preconditions [] [0] true).2.2.1 (by decide),
   (C5_layer_preconditions [] [0, 1] true).2.2.2 (by decide)⟩

/-! ### Claim C1 -/

/-- A concrete length-15 weight block used to test claim C1. -/
def c1weights : List ℚ := [0, 1, 2, 3, 4, 5, 6, 7, 8, 9, 10, 11, 12, 13, 14]

/-- C1 as stated is false.  It asserts that the two extra single-qubit
rotations open the gate sequence exactly when `skip_first_layer` is
`false`; but on the wire list `[0, 1, 2]` with the weight block
`c1weights` and `skip_first_layer = true`, the queued gates do start with
the two extra rotations (the source emits them when the flag is true:
`if indx % 2 == 0 and skip_first_layer`). -/
theorem C1_counterexample :
    ¬ (∀ (w : List ℚ) (ws : List ℕ) (skip : Bool), 3 ≤ ws.length →
        w.length = 15 →
        ((convolutional_layer w ws skip).map (fun gs => gs.take 2)
            = .ok (extraRots w ws 0) ↔ skip = false)) := by
  intro hclaim
  have h := hclaim c1weights [0, 1, 2] true (by decide) (by decide)
  have hpre : (convolutional_layer c1weights [0, 1, 2] true).map
      (fun gs => gs.take 2) = .ok (extraRots c1weights [0, 1, 2] 0) := by decide
  exact absurd (h.mp hpre) (by decide)

/-- C1 (amended): for every wire list of length ≥ 3 and weight block of
length 15, the first sweep (`p = 0`) handles the even-indexed adjacent
pairs and the second sweep (`p = 1`) the odd-indexed ones; the two extra
single-qubit rotations precede a first-sweep pair exactly when
`skip_first_layer` is **true** (not false, as claimed), and in all cases
each pair receives the three Ising interactions (X, Y, Z axes) followed by
two more single-qubit rotations (`pairCore`). -/
theorem C1_convolutional_layer_structure (w : List ℚ) (ws : List ℕ)
    (skip : Bool) (h3 : 3 ≤ ws.length) (h15 : w.length = 15) :
    convolutional_layer w ws skip = .ok
      (((sweepPairs 0 ws).flatMap fun i =>
          (if skip = true then extraRots w ws i else []) ++ pairCore w ws i)
        ++ (sweepPairs 1 ws).flatMap fun i => pairCore w ws i) :=
  convolutional_layer_ok w ws skip h3

theorem C1_witness :
    (3 ≤ ([0, 1, 2] : List ℕ).length) ∧ c1weights.length = 15 ∧
    convolutional_layer c1weights [0, 1, 2] false = .ok
      (((sweepPairs 0 [0, 1, 2]).flatMap fun i =>
          (if (false : Bool) = true then extraRots c1weights [0, 1, 2] i
           else []) ++ pairCore c1weights [0, 1, 2] i)
        ++ (sweepPairs 1 [0, 1, 2]).flatMap fun i =>
            pairCore c1weights [0, 1, 2] i) :=
  ⟨by decide, by decide,
   C1_convolutional_layer_structure c1weights [0, 1, 2] false (by decide)
     (by decide)⟩

/-! ### Claim C4 -/

/-- C4: for every wire list of length ≥ 2, `pooling_layer` measures exactly
the odd-indexed wires of the list, in order (`everyOther ws.tail`), which
is `⌊n/2⌋` measurements; each measurement is followed by a single-qubit
rotation on the preceding even-indexed wire conditioned on its outcome
(`Gate.condU3` controlled by `wires[2k+1]`, targeting `wires[2k]`); and,
for duplicate-free wire lists, the surviving (unmeasured) wires are exactly
the even-indexed ones (`everyOther ws`). -/
theorem C4_pooling_layer_spec (w : List ℚ) (ws : List ℕ)
    (h2 : 2 ≤ ws.length) :
    ∃ gs, pooling_layer w ws = .ok gs ∧
      gs = ((List.range (ws.length / 2)).flatMap fun k =>
        [Gate.measure (ws.getD (2 * k + 1) 0),
         Gate.condU3 (ws.getD (2 * k + 1) 0)
           (w.getD 0 0) (w.getD 1 0) (w.getD 2 0) (ws.getD (2 * k) 0)]) ∧
      measuredWires gs = everyOther ws.tail ∧
      (measuredWires gs).length = ws.length / 2 ∧
      (ws.Nodup → ∀ x ∈ ws, (x ∉ measuredWires gs ↔ x ∈ everyOther ws)) := by
  refine ⟨_, pooling_layer_ok w ws h2, rfl, ?_⟩
  have hm : measuredWires ((List.range (ws.length / 2)).flatMap fun k =>
      [Gate.measure (ws.getD (2 * k + 1) 0),
       Gate.condU3 (ws.getD (2 * k + 1) 0)
         (w.getD 0 0) (w.getD 1 0) (w.getD 2 0) (ws.getD (2 * k) 0)])
      = (List.range (ws.length / 2)).map fun k => ws.getD (2 * k + 1) 0 := by
    rw [measuredWires_flatMap]
    exact flatMap_single _ _
  have he : everyOther ws.tail
      = (List.range (ws.length / 2)).map fun k => ws.getD (2 * k + 1) 0 := by
    rw [everyOther_eq_map (0 : ℕ) ws.tail, List.length_tail,
      show (ws.length - 1 + 1) / 2 = ws.length / 2 by omega]
    exact List.map_congr_left fun k _ => getD_tail 0 (2 * k) ws
  refine ⟨hm.trans he.symm, ?_, ?_⟩
  · rw [hm, List.length_map, List.length_range]
  · intro hnd x hx
    rw [hm.trans he.symm]
    have hperm := everyOther_perm ws
    have hxm := hperm.mem_iff.mp hx
    have hnd2 := hperm.nodup hnd
    rw [List.nodup_append] at hnd2
    constructor
    · intro hnm
      rcases List.mem_append.mp hxm with hin | hin
      · exact hin
      · exact absurd hin hnm
    · intro hev hmem
      exact hnd2.2.2 hev hmem

theorem C4_witness :
    (2 ≤ ([5, 7, 9, 11] : List ℕ).length) ∧
    (∃ gs, pooling_layer [1, 2, 3] [5, 7, 9, 11] = .ok gs ∧
      gs = ((List.range (([5, 7, 9, 11] : List ℕ).length / 2)).flatMap fun k =>
        [Gate.measure (([5, 7, 9, 11] : List ℕ).getD (2 * k + 1) 0),
         Gate.condU3 (([5, 7, 9, 11] : List ℕ).getD (2 * k + 1) 0)
           (([1, 2, 3] : List ℚ).getD 0 0) (([1, 2, 3] : List ℚ).getD 1 0)
           (([1, 2, 3] : List ℚ).getD 2 0)
           (([5, 7, 9, 11] : List ℕ).getD (2 * k) 0)]) ∧
      measuredWires gs = everyOther ([5, 7, 9, 11] : List ℕ).tail ∧
      (measuredWires gs).length = ([5, 7, 9, 11] : List ℕ).length / 2 ∧
      (([5, 7, 9, 11] : List ℕ).Nodup → ∀ x ∈ ([5, 7, 9, 11] : List ℕ),
        (x ∉ measuredWires gs ↔ x ∈ everyOther ([5, 7, 9, 11] : List ℕ)))) :=
  ⟨by decide, C4_pooling_layer_spec [1, 2, 3] [5, 7, 9, 11] (by decide)⟩

/-! ### Claim C3 -/

/-- C3: `conv_net` first queues the amplitude embedding of the features over
the full register with padding constant `0.5` (whose modelled amplitude
vector is the features extended by `0.5`-entries to the register
dimension); then, for each layer index `j`, it runs `conv_and_pooling` with
column `j` of the weight tensor — the first 15 entries feeding the
convolutional layer and the remaining entries the pooling layer — over the
currently active wires `everyOther^[j] (range num_wires)`, shrinking the
active wires to every other wire after each round; then it applies the dense
layer (`ArbitraryUnitary`) to the remaining wires; and it returns the
probability distribution of measuring wire 0 alone (`.ok [0]`). -/
theorem C3_conv_net_structure (weights : List (List ℚ))
    (last_layer_weights features : List ℚ)
    (hw : ∀ j < weights.length,
      3 ≤ (everyOther^[j] (List.range num_wires)).length)
    (hsize : last_layer_weights.length
      = 4 ^ (everyOther^[weights.length] (List.range num_wires)).length - 1) :
    ∃ roundGs : ℕ → List Gate,
      (∀ j < weights.length, ∃ cg pg,
        convolutional_layer ((weights.getD j []).take 15)
            (everyOther^[j] (List.range num_wires)) true = .ok cg ∧
        pooling_layer ((weights.getD j []).drop 15)
            (everyOther^[j] (List.range num_wires)) = .ok pg ∧
        roundGs j = cg ++ pg ∧
        conv_and_pooling (weights.getD j [])
            (everyOther^[j] (List.range num_wires)) = .ok (roundGs j)) ∧
      conv_net weights last_layer_weights features =
        ⟨Gate.amplitudeEmbedding features (1 / 2) (List.range num_wires)
            :: ((List.range weights.length).flatMap roundGs
              ++ [Gate.arbitraryUnitary last_layer_weights
                    (everyOther^[weights.length] (List.range num_wires))]),
          .ok [0]⟩ ∧
      ampSemantics
          (Gate.amplitudeEmbedding features (1 / 2) (List.range num_wires))
        = some (features
            ++ List.replicate (2 ^ num_wires - features.length) (1 / 2)) := by
  obtain ⟨g, hg, hr⟩ := convRounds_ok weights (List.range num_wires) hw
  refine ⟨g, ?_, ?_, ?_⟩
  · intro j hj
    have h3 : 3 ≤ (everyOther^[j] (List.range num_wires)).length := hw j hj
    obtain ⟨cg, pg, hc, hp, hcp⟩ :=
      conv_and_pooling_ok (weights.getD j []) _ h3
    have hgj := hg j hj
    have hval : cg ++ pg = g j := by
      have := hcp.symm.trans hgj
      injection this
    exact ⟨cg, pg, hc, hp, hval.symm, hgj⟩
  · have hres : (convRounds weights (List.range num_wires)).result = .ok () := by
      rw [hr]
    have hg2 : (convRounds weights (List.range num_wires)).gates
        = (List.range weights.length).flatMap g := by rw [hr]
    have hwr : (convRounds weights (List.range num_wires)).wires
        = everyOther^[weights.length] (List.range num_wires) := by rw [hr]
    simp only [conv_net, hres, hg2, hwr]
    rw [if_pos hsize]
    rfl
  · rfl

theorem C3_witness :
    (∀ j < ([List.replicate 18 (1 : ℚ), List.replicate 18 (2 : ℚ)]).length,
      3 ≤ (everyOther^[j] (List.range num_wires)).length) ∧
    (List.replicate 15 (0 : ℚ)).length
      = 4 ^ (everyOther^[([List.replicate 18 (1 : ℚ),
          List.replicate 18 (2 : ℚ)]).length] (List.range num_wires)).length
        - 1 ∧
    (∃ roundGs : ℕ → List Gate,
      (∀ j < ([List.replicate 18 (1 : ℚ), List.replicate 18 (2 : ℚ)]).length,
        ∃ cg pg,
        convolutional_layer
            (([List.replicate 18 (1 : ℚ),
               List.replicate 18 (2 : ℚ)].getD j []).take 15)
            (everyOther^[j] (List.range num_wires)) true = .ok cg ∧
        pooling_layer
            (([List.replicate 18 (1 : ℚ),
               List.replicate 18 (2 : ℚ)].getD j []).drop 15)
            (everyOther^[j] (List.range num_wires)) = .ok pg ∧
        roundGs j = cg ++ pg ∧
        conv_and_pooling ([List.replicate 18 (1 : ℚ),
            List.replicate 18 (2 : ℚ)].getD j [])
            (everyOther^[j] (List.range num_wires)) = .ok (roundGs j)) ∧
      conv_net [List.replicate 18 (1 : ℚ), List.replicate 18 (2 : ℚ)]
          (List.replicate 15 (0 : ℚ)) [1] =
        ⟨Gate.amplitudeEmbedding [1] (1 / 2) (List.range num_wires)
            :: ((List.range ([List.replicate 18 (1 : ℚ),
                  List.replicate 18 (2 : ℚ)]).length).flatMap roundGs
              ++ [Gate.arbitraryUnitary (List.replicate 15 (0 : ℚ))
                    (everyOther^[([List.replicate 18 (1 : ℚ),
                        List.replicate 18 (2 : ℚ)]).length]
                      (List.range num_wires))]),
          .ok [0]⟩ ∧
      ampSemantics
          (Gate.amplitudeEmbedding [1] (1 / 2) (List.range num_wires))
        = some (([1] : List ℚ)
            ++ List.replicate (2 ^ num_wires - ([1] : List ℚ).length) (1 / 2))) :=
  ⟨by decide, by decide,
   C3_conv_net_structure [List.replicate 18 (1 : ℚ), List.replicate 18 (2 : ℚ)]
     (List.replicate 15 (0 : ℚ)) [1] (by decide) (by decide)⟩

/-! ### Claim C2 -/

/-- C2 as stated is false.  It requires the final-layer size mismatch to be
reported before **any** gate is queued and `dense_layer` itself to reject
mismatched weight vectors.  With no convolution layers, an empty final
weight vector and feature vector `[1]`, `conv_net` queues the amplitude
embedding before its size assertion fires, so the queued gate list at the
failure is non-empty (and `dense_layer` never errors). -/
theorem C2_counterexample :
    ¬ (∀ (weights : List (List ℚ)) (last_layer_weights features : List ℚ),
        (∀ j < weights.length,
          3 ≤ (everyOther^[j] (List.range num_wires)).length) →
        last_layer_weights.length
            ≠ 4 ^ (everyOther^[weights.length] (List.range num_wires)).length
              - 1 →
        (conv_net weights last_layer_weights features).gates = [] ∧
        ∃ e, dense_layer last_layer_weights
            (everyOther^[weights.length] (List.range num_wires))
          = .error e) := by
  intro hclaim
  obtain ⟨hgates, -⟩ := hclaim [] [] [1] (by decide) (by decide)
  exact absurd hgates (by decide)

/-- C2 (amended): when the rounds succeed and the final-layer weight vector
has the wrong size, `conv_net` reports the single descriptive configuration
error (naming the expected and given sizes) *after* the amplitude embedding
and convolution/pooling gates have been queued but *before* the dense
layer's gate: its result is the error, some gates have been queued, and no
queued gate is an `ArbitraryUnitary`.  `dense_layer` itself performs no
size check — it unconditionally emits its gate for every weight vector. -/
theorem C2_conv_net_size_check (weights : List (List ℚ))
    (last_layer_weights features : List ℚ)
    (hw : ∀ j < weights.length,
      3 ≤ (everyOther^[j] (List.range num_wires)).length)
    (hbad : last_layer_weights.length
      ≠ 4 ^ (everyOther^[weights.length] (List.range num_wires)).length - 1) :
    (conv_net weights last_layer_weights features).result
        = .error (sizeErrorMsg
            (4 ^ (everyOther^[weights.length] (List.range num_wires)).length
              - 1)
            last_layer_weights.length) ∧
    (conv_net weights last_layer_weights features).gates ≠ [] ∧
    (∀ g ∈ (conv_net weights last_layer_weights features).gates,
      isDense g = false) ∧
    (∀ (v : List ℚ) (vs : List ℕ),
      dense_layer v vs = .ok [Gate.arbitraryUnitary v vs]) := by
  obtain ⟨g, hg, hr⟩ := convRounds_ok weights (List.range num_wires) hw
  have hres : (convRounds weights (List.range num_wires)).result = .ok () := by
    rw [hr]
  have hwr : (convRounds weights (List.range num_wires)).wires
      = everyOther^[weights.length] (List.range num_wires) := by rw [hr]
  have hcn : conv_net weights last_layer_weights features
      = ⟨Gate.amplitudeEmbedding features (1 / 2) (List.range num_wires)
          :: (convRounds weights (List.range num_wires)).gates,
        .error (sizeErrorMsg
          (4 ^ (everyOther^[weights.length] (List.range num_wires)).length - 1)
          last_layer_weights.length)⟩ := by
    simp only [conv_net, hres, hwr]
    rw [if_neg hbad]
  refine ⟨?_, ?_, ?_, fun v vs => rfl⟩
  · rw [hcn]
  · rw [hcn]
    simp
  · rw [hcn]
    intro gg hgg
    rcases List.mem_cons.mp hgg with rfl | hgg
    · rfl
    · exact convRounds_noDense weights (List.range num_wires) gg hgg

theorem C2_witness :
    (∀ j < ([] : List (List ℚ)).length,
      3 ≤ (everyOther^[j] (List.range num_wires)).length) ∧
    (([] : List ℚ).length
      ≠ 4 ^ (everyOther^[([] : List (List ℚ)).length]
          (List.range num_wires)).length - 1) ∧
    ((conv_net [] [] [1]).result
        = .error (sizeErrorMsg
            (4 ^ (everyOther^[([] : List (List ℚ)).length]
                (List.range num_wires)).length - 1)
            ([] : List ℚ).length) ∧
      (conv_net [] [] [1]).gates ≠ [] ∧
      (∀ g ∈ (conv_net [] [] [1]).gates, isDense g = false) ∧
      (∀ (v : List ℚ) (vs : List ℕ),
        dense_layer v vs = .ok [Gate.arbitraryUnitary v vs])) :=
  ⟨by decide, by decide, C2_conv_net_size_check [] [] [1] (by decide) (by decide)⟩

/-! ### Claim C7 -/

/-- C7: for every non-empty, equal-length batch of features and labels and
any weights, `compute_cost` returns exactly `1` minus the mean, over the
batch, of the probabilities the network assigns to each sample's given
label (the entries of `compute_out`). -/
theorem C7_compute_cost_mean {W Wl F : Type}
    (convNetProb : W → Wl → F → List ℚ) (weights : W) (weights_last : Wl)
    (features : List F) (labels : List ℕ)
    (hne : features ≠ []) (hlen : features.length = labels.length) :
    compute_cost convNetProb weights weights_last features labels
      = 1 - listMean
          (compute_out convNetProb weights weights_last features labels) := by
  have hlo : (compute_out convNetProb weights weights_last features
      labels).length = labels.length := by
    simp [compute_out, List.length_zipWith, hlen]
  simp only [compute_cost, listMean, hlo]

theorem C7_witness :
    (([(1 : ℚ), (1 : ℚ) / 4] : List ℚ) ≠ []) ∧
    ([(1 : ℚ), (1 : ℚ) / 4] : List ℚ).length = ([0, 1] : List ℕ).length ∧
    compute_cost (fun (_ : Unit) (_ : Unit) (x : ℚ) => [x, 1 - x]) () ()
        [(1 : ℚ), (1 : ℚ) / 4] [0, 1]
      = 1 - listMean (compute_out
          (fun (_ : Unit) (_ : Unit) (x : ℚ) => [x, 1 - x]) () ()
          [(1 : ℚ), (1 : ℚ) / 4] [0, 1]) :=
  ⟨by decide, by decide,
   C7_compute_cost_mean (fun _ _ x => [x, 1 - x]) () ()
     [(1 : ℚ), (1 : ℚ) / 4] [0, 1] (by decide) (by decide)⟩

/-! ### Claim C8 -/

/-- C8: for every non-empty, equal-length batch and any weights,
`compute_accuracy` lies in `[0, 1]`, equals `1` exactly when every sample's
selected probability strictly exceeds `1/2`, and a sample whose selected
probability is exactly `1/2` forces it strictly below `1` (such a sample
counts as incorrect). -/
theorem C8_compute_accuracy_spec {W Wl F : Type}
    (convNetProb : W → Wl → F → List ℚ) (weights : W) (weights_last : Wl)
    (features : List F) (labels : List ℕ)
    (hne : features ≠ []) (hlen : features.length = labels.length) :
    0 ≤ compute_accuracy convNetProb weights weights_last features labels ∧
    compute_accuracy convNetProb weights weights_last features labels ≤ 1 ∧
    (compute_accuracy convNetProb weights weights_last features labels = 1 ↔
      ∀ x ∈ compute_out convNetProb weights weights_last features labels,
        (1 : ℚ) / 2 < x) ∧
    ((∃ x ∈ compute_out convNetProb weights weights_last features labels,
        x = (1 : ℚ) / 2) →
      compute_accuracy convNetProb weights weights_last features labels < 1)
    := by
  have hlo : (compute_out convNetProb weights weights_last features
      labels).length = labels.length := by
    simp [compute_out, List.length_zipWith, hlen]
  have hpos : 0 < ((compute_out convNetProb weights weights_last features
      labels).length : ℚ) := by
    rw [hlo]
    have : labels ≠ [] := by
      intro h
      rw [h] at hlen
      exact hne (List.length_eq_zero.mp hlen)
    have := List.length_pos.mpr this
    exact_mod_cast this
  have h0 : 0 ≤ compute_accuracy convNetProb weights weights_last features
      labels := by
    simp only [compute_accuracy]
    exact div_nonneg (by positivity) (by positivity)
  have h1 : compute_accuracy convNetProb weights weights_last features
      labels ≤ 1 := by
    simp only [compute_accuracy]
    rw [div_le_one hpos]
    exact_mod_cast List.countP_le_length _
  have hiff : compute_accuracy convNetProb weights weights_last features
      labels = 1 ↔
      ∀ x ∈ compute_out convNetProb weights weights_last features labels,
        (1 : ℚ) / 2 < x := by
    simp only [compute_accuracy]
    rw [div_eq_one_iff_eq (ne_of_gt hpos), Nat.cast_inj,
      List.countP_eq_length]
    constructor
    · intro h x hx
      have := h x hx
      rwa [decide_eq_true_eq] at this
    · intro h x hx
      rw [decide_eq_true_eq]
      exact h x hx
  refine ⟨h0, h1, hiff, fun hex => ?_⟩
  obtain ⟨x, hx, hx2⟩ := hex
  have : compute_accuracy convNetProb weights weights_last features labels
      ≠ 1 := by
    intro heq
    have := hiff.mp heq x hx
    rw [hx2] at this
    exact lt_irrefl _ this
  exact lt_of_le_of_ne h1 this

theorem C8_witness :
    (([(1 : ℚ)] : List ℚ) ≠ []) ∧
    ([(1 : ℚ)] : List ℚ).length = ([0] : List ℕ).length ∧
    (0 ≤ compute_accuracy (fun (_ : Unit) (_ : Unit) (x : ℚ) => [x, 1 - x])
        () () [(1 : ℚ)] [0] ∧
      compute_accuracy (fun (_ : Unit) (_ : Unit) (x : ℚ) => [x, 1 - x])
        () () [(1 : ℚ)] [0] ≤ 1 ∧
      (compute_accuracy (fun (_ : Unit) (_ : Unit) (x : ℚ) => [x, 1 - x])
          () () [(1 : ℚ)] [0] = 1 ↔
        ∀ x ∈ compute_out (fun (_ : Unit) (_ : Unit) (x : ℚ) => [x, 1 - x])
            () () [(1 : ℚ)] [0], (1 : ℚ) / 2 < x) ∧
      ((∃ x ∈ compute_out (fun (_ : Unit) (_ : Unit) (x : ℚ) => [x, 1 - x])
          () () [(1 : ℚ)] [0], x = (1 : ℚ) / 2) →
        compute_accuracy (fun (_ : Unit) (_ : Unit) (x : ℚ) => [x, 1 - x])
          () () [(1 : ℚ)] [0] < 1)) :=
  ⟨by decide, by decide,
   C8_compute_accuracy_spec (fun _ _ x => [x, 1 - x]) () () [(1 : ℚ)] [0]
     (by decide) (by decide)⟩

/-! ### Claim C9 -/

/-- C9: permuting the features and the labels together identically (the
zipped sample lists are permutations of each other) leaves both
`compute_accuracy` and `compute_cost` unchanged — their reductions (count,
sum, length) are order-independent. -/
theorem C9_perm_invariant {W Wl F : Type}
    (convNetProb : W → Wl → F → List ℚ) (weights : W) (weights_last : Wl)
    (f1 f2 : List F) (l1 l2 : List ℕ)
    (h1 : f1.length = l1.length) (h2 : f2.length = l2.length)
    (hp : (f1.zip l1).Perm (f2.zip l2)) :
    compute_accuracy convNetProb weights weights_last f1 l1
        = compute_accuracy convNetProb weights weights_last f2 l2 ∧
    compute_cost convNetProb weights weights_last f1 l1
        = compute_cost convNetProb weights weights_last f2 l2 := by
  have ho : ∀ (f : List F) (l : List ℕ),
      compute_out convNetProb weights weights_last f l
        = (f.zip l).map fun p =>
            (convNetProb weights weights_last p.1).getD p.2 0 := fun f l =>
    zipWith_eq_map_zip _ f l
  have hpm := hp.map fun p =>
    (convNetProb weights weights_last p.1).getD p.2 0
  have hl : l1.length = l2.length := by
    have hz := hp.length_eq
    rw [List.length_zip, List.length_zip, h1, h2, min_self, min_self] at hz
    exact hz
  constructor
  · simp only [compute_accuracy, ho]
    rw [hpm.countP_eq, hpm.length_eq]
  · simp only [compute_cost, ho]
    rw [hpm.sum_eq, hl]

theorem C9_witness :
    ([(1 : ℚ), (3 : ℚ) / 4] : List ℚ).length = ([0, 1] : List ℕ).length ∧
    ([(3 : ℚ) / 4, (1 : ℚ)] : List ℚ).length = ([1, 0] : List ℕ).length ∧
    (([(1 : ℚ), (3 : ℚ) / 4].zip ([0, 1] : List ℕ)).Perm
      ([(3 : ℚ) / 4, (1 : ℚ)].zip ([1, 0] : List ℕ))) ∧
    (compute_accuracy (fun (_ : Unit) (_ : Unit) (x : ℚ) => [x, 1 - x]) () ()
          [(1 : ℚ), (3 : ℚ) / 4] [0, 1]
        = compute_accuracy (fun (_ : Unit) (_ : Unit) (x : ℚ) => [x, 1 - x])
          () () [(3 : ℚ) / 4, (1 : ℚ)] [1, 0] ∧
      compute_cost (fun (_ : Unit) (_ : Unit) (x : ℚ) => [x, 1 - x]) () ()
          [(1 : ℚ), (3 : ℚ) / 4] [0, 1]
        = compute_cost (fun (_ : Unit) (_ : Unit) (x : ℚ) => [x, 1 - x])
          () () [(3 : ℚ) / 4, (1 : ℚ)] [1, 0]) :=
  ⟨by decide, by decide,
   List.Perm.swap ((3 : ℚ) / 4, 1) ((1 : ℚ), 0) [],
   C9_perm_invariant (fun _ _ x => [x, 1 - x]) () ()
     [(1 : ℚ), (3 : ℚ) / 4] [(3 : ℚ) / 4, (1 : ℚ)] [0, 1] [1, 0]
     (by decide) (by decide)
     (List.Perm.swap ((3 : ℚ) / 4, 1) ((1 : ℚ), 0) [])⟩

/-! ### Claim C6 -/

/-- C6: for every positive `n_epochs` (and any optimizer and metric
collaborators), the training loop performs exactly one optimizer step per
epoch — the weights entering the metrics of record `i` are those reached
after `i + 1` iterated updates from the initial point — evaluates the train
accuracy, test cost and test accuracy of each record at those updated
weights, appends exactly one record per epoch (every metric list has length
`n_epochs`, so the loop terminates after exactly `n_epochs` epochs with no
early stopping), and the returned `step` values are exactly
`1, …, n_epochs`. -/
theorem C6_train_qcnn_spec {S W : Type} (stepAndCost : S → W → (S × W) × ℚ)
    (trainAcc testCost testAcc : W → ℚ) (n_train n_epochs : ℕ)
    (s0 : S) (w0 : W) (hpos : 0 < n_epochs) :
    (train_qcnn stepAndCost trainAcc testCost testAcc n_train n_epochs s0
        w0).step = (List.range n_epochs).map (fun i => i + 1) ∧
    (train_qcnn stepAndCost trainAcc testCost testAcc n_train n_epochs s0
        w0).n_train = List.replicate n_epochs n_train ∧
    (train_qcnn stepAndCost trainAcc testCost testAcc n_train n_epochs s0
        w0).train_cost.length = n_epochs ∧
    (train_qcnn stepAndCost trainAcc testCost testAcc n_train n_epochs s0
        w0).train_acc.length = n_epochs ∧
    (train_qcnn stepAndCost trainAcc testCost testAcc n_train n_epochs s0
        w0).test_cost.length = n_epochs ∧
    (train_qcnn stepAndCost trainAcc testCost testAcc n_train n_epochs s0
        w0).test_acc.length = n_epochs ∧
    (∀ i < n_epochs,
      (train_qcnn stepAndCost trainAcc testCost testAcc n_train n_epochs s0
          w0).train_acc.getD i 0
        = trainAcc ((stepIter stepAndCost)^[i + 1] (s0, w0)).2 ∧
      (train_qcnn stepAndCost trainAcc testCost testAcc n_train n_epochs s0
          w0).test_cost.getD i 0
        = testCost ((stepIter stepAndCost)^[i + 1] (s0, w0)).2 ∧
      (train_qcnn stepAndCost trainAcc testCost testAcc n_train n_epochs s0
          w0).test_acc.getD i 0
        = testAcc ((stepIter stepAndCost)^[i + 1] (s0, w0)).2) := by
  have hlen := trainEpochs_length stepAndCost trainAcc testCost testAcc
    n_epochs s0 w0
  refine ⟨rfl, rfl, hlen.1, hlen.2.1, hlen.2.2.1, hlen.2.2.2, ?_⟩
  intro i hi
  have h := trainEpochs_getD stepAndCost trainAcc testCost testAcc
    n_epochs s0 w0 i hi
  exact ⟨h.2.1, h.2.2.1, h.2.2.2⟩

theorem C6_witness :
    (0 < 2) ∧
    ((train_qcnn (fun s w : ℕ => ((s + 1, w + 1), (w : ℚ)))
        (fun w : ℕ => (w : ℚ)) (fun w : ℕ => (w : ℚ) + 1)
        (fun w : ℕ => (w : ℚ) + 2) 4 2 0 0).step
      = (List.range 2).map (fun i => i + 1) ∧
    (train_qcnn (fun s w : ℕ => ((s + 1, w + 1), (w : ℚ)))
        (fun w : ℕ => (w : ℚ)) (fun w : ℕ => (w : ℚ) + 1)
        (fun w : ℕ => (w : ℚ) + 2) 4 2 0 0).n_train
      = List.replicate 2 4 ∧
    (train_qcnn (fun s w : ℕ => ((s + 1, w + 1), (w : ℚ)))
        (fun w : ℕ => (w : ℚ)) (fun w : ℕ => (w : ℚ) + 1)
        (fun w : ℕ => (w : ℚ) + 2) 4 2 0 0).train_cost.length = 2 ∧
    (train_qcnn (fun s w : ℕ => ((s + 1, w + 1), (w : ℚ)))
        (fun w : ℕ => (w : ℚ)) (fun w : ℕ => (w : ℚ) + 1)
        (fun w : ℕ => (w : ℚ) + 2) 4 2 0 0).train_acc.length = 2 ∧
    (train_qcnn (fun s w : ℕ => ((s + 1, w + 1), (w : ℚ)))
        (fun w : ℕ => (w : ℚ)) (fun w : ℕ => (w : ℚ) + 1)
        (fun w : ℕ => (w : ℚ) + 2) 4 2 0 0).test_cost.length = 2 ∧
    (train_qcnn (fun s w : ℕ => ((s + 1, w + 1), (w : ℚ)))
        (fun w : ℕ => (w : ℚ)) (fun w : ℕ => (w : ℚ) + 1)
        (fun w : ℕ => (w : ℚ) + 2) 4 2 0 0).test_acc.length = 2 ∧
    (∀ i < 2,
      (train_qcnn (fun s w : ℕ => ((s + 1, w + 1), (w : ℚ)))
          (fun w : ℕ => (w : ℚ)) (fun w : ℕ => (w : ℚ) + 1)
          (fun w : ℕ => (w : ℚ) + 2) 4 2 0 0).train_acc.getD i 0
        = (fun w : ℕ => (w : ℚ))
            ((stepIter (fun s w : ℕ => ((s + 1, w + 1), (w : ℚ))))^[i + 1]
              (0, 0)).2 ∧
      (train_qcnn (fun s w : ℕ => ((s + 1, w + 1), (w : ℚ)))
          (fun w : ℕ => (w : ℚ)) (fun w : ℕ => (w : ℚ) + 1)
          (fun w : ℕ => (w : ℚ) + 2) 4 2 0 0).test_cost.getD i 0
        = (fun w : ℕ => (w : ℚ) + 1)
            ((stepIter (fun s w : ℕ => ((s + 1, w + 1), (w : ℚ))))^[i + 1]
              (0, 0)).2 ∧
      (train_qcnn (fun s w : ℕ => ((s + 1, w + 1), (w : ℚ)))
          (fun w : ℕ => (w : ℚ)) (fun w : ℕ => (w : ℚ) + 1)
          (fun w : ℕ => (w : ℚ) + 2) 4 2 0 0).test_acc.getD i 0
        = (fun w : ℕ => (w : ℚ) + 2)
            ((stepIter (fun s w : ℕ => ((s + 1, w + 1), (w : ℚ))))^[i + 1]
              (0, 0)).2)) :=
  ⟨by decide,
   C6_train_qcnn_spec (fun s w : ℕ => ((s + 1, w + 1), (w : ℚ)))
     (fun w : ℕ => (w : ℚ)) (fun w : ℕ => (w : ℚ) + 1)
     (fun w : ℕ => (w : ℚ) + 2) 4 2 0 0 (by decide)⟩

/-! ### Claim C10 -/

/-- C10: with the optimizer modelled from the spec (its `step_and_cost`
returns the cost at the prior point), every per-epoch record's `train_cost`
is the cost evaluated at the weights *before* that epoch's update (after
`i` iterated updates), whereas `train_acc`, `test_cost` and `test_acc` of
the same record are evaluated at the *post-update* weights (after `i + 1`
iterated updates). -/
theorem C10_train_cost_prior_point {S W : Type} (upd : S → W → S × W)
    (cost trainAcc testCost testAcc : W → ℚ) (n_train n_epochs : ℕ)
    (s0 : S) (w0 : W) (i : ℕ) (hi : i < n_epochs) :
    (train_qcnn (specStepAndCost upd cost) trainAcc testCost testAcc n_train
        n_epochs s0 w0).train_cost.getD i 0
      = cost ((stepIter (specStepAndCost upd cost))^[i] (s0, w0)).2 ∧
    (train_qcnn (specStepAndCost upd cost) trainAcc testCost testAcc n_train
        n_epochs s0 w0).train_acc.getD i 0
      = trainAcc ((stepIter (specStepAndCost upd cost))^[i + 1] (s0, w0)).2 ∧
    (train_qcnn (specStepAndCost upd cost) trainAcc testCost testAcc n_train
        n_epochs s0 w0).test_cost.getD i 0
      = testCost ((stepIter (specStepAndCost upd cost))^[i + 1] (s0, w0)).2 ∧
    (train_qcnn (specStepAndCost upd cost) trainAcc testCost testAcc n_train
        n_epochs s0 w0).test_acc.getD i 0
      = testAcc ((stepIter (specStepAndCost upd cost))^[i + 1] (s0, w0)).2 := by
  have h := trainEpochs_getD (specStepAndCost upd cost) trainAcc testCost
    testAcc n_epochs s0 w0 i hi
  exact ⟨h.1, h.2.1, h.2.2.1, h.2.2.2⟩

theorem C10_witness :
    (1 < 2) ∧
    ((train_qcnn (specStepAndCost (fun s w : ℕ => (s + 1, w + 1))
          (fun w : ℕ => (w : ℚ))) (fun w : ℕ => (w : ℚ) + 1)
          (fun w : ℕ => (w : ℚ) + 2) (fun w : ℕ => (w : ℚ) + 3) 4 2 0
          0).train_cost.getD 1 0
        = (fun w : ℕ => (w : ℚ))
            ((stepIter (specStepAndCost (fun s w : ℕ => (s + 1, w + 1))
                (fun w : ℕ => (w : ℚ))))^[1] (0, 0)).2 ∧
      (train_qcnn (specStepAndCost (fun s w : ℕ => (s + 1, w + 1))
          (fun w : ℕ => (w : ℚ))) (fun w : ℕ => (w : ℚ) + 1)
          (fun w : ℕ => (w : ℚ) + 2) (fun w : ℕ => (w : ℚ) + 3) 4 2 0
          0).train_acc.getD 1 0
        = (fun w : ℕ => (w : ℚ) + 1)
            ((stepIter (specStepAndCost (fun s w : ℕ => (s + 1, w + 1))
                (fun w : ℕ => (w : ℚ))))^[1 + 1] (0, 0)).2 ∧
      (train_qcnn (specStepAndCost (fun s w : ℕ => (s + 1, w + 1))
          (fun w : ℕ => (w : ℚ))) (fun w : ℕ => (w : ℚ) + 1)
          (fun w : ℕ => (w : ℚ) + 2) (fun w : ℕ => (w : ℚ) + 3) 4 2 0
          0).test_cost.getD 1 0
        = (fun w : ℕ => (w : ℚ) + 2)
            ((stepIter (specStepAndCost (fun s w : ℕ => (s + 1, w + 1))
                (fun w : ℕ => (w : ℚ))))^[1 + 1] (0, 0)).2 ∧
      (train_qcnn (specStepAndCost (fun s w : ℕ => (s + 1, w + 1))
          (fun w : ℕ => (w : ℚ))) (fun w : ℕ => (w : ℚ) + 1)
          (fun w : ℕ => (w : ℚ) + 2) (fun w : ℕ => (w : ℚ) + 3) 4 2 0
          0).test_acc.getD 1 0
        = (fun w : ℕ => (w : ℚ) + 3)
            ((stepIter (specStepAndCost (fun s w : ℕ => (s + 1, w + 1))
                (fun w : ℕ => (w : ℚ))))^[1 + 1] (0, 0)).2) :=
  ⟨by decide,
   C10_train_cost_prior_point (fun s w : ℕ => (s + 1, w + 1))
     (fun w : ℕ => (w : ℚ)) (fun w : ℕ => (w : ℚ) + 1)
     (fun w : ℕ => (w : ℚ) + 2) (fun w : ℕ => (w : ℚ) + 3) 4 2 0 0 1
     (by decide)⟩
